import Mathlib

/-!
# ChannelSignal inbound-email ingestion: a shallow embedding

This file embeds the ingestion/classification pipeline of the ChannelSignal
repository (files `src/lib/ingestion/parser.ts` and
`src/lib/ingestion/handler.ts`) into Lean 4 and proves or refutes the
specification claims about it.

Modelling conventions:
* JavaScript strings are modelled as Lean `String` (operated on as `List Char`
  where recursion is needed).  `toLowerCase`, `trim`, `split`, `startsWith`,
  `endsWith` and `includes` are given structurally recursive models
  (`jsToLower`, `jsTrim`, ...) that agree with JavaScript on the ASCII
  inputs of interest and reduce inside the kernel.
* The regular expression of `parseEmailAddress` is modelled by an explicit
  backtracking matcher that mirrors the ECMAScript engine's search order
  (greedy quantifiers, leftmost alternatives first).
* The database is modelled as an explicit state (`Db`) of lists of rows;
  Prisma calls become pure functions on that state.  A thrown error is an
  `Option String` result component carrying the error message.
-/

/-- JavaScript truthiness of a nullable string: `null` and `""` are falsy. -/
def truthy : Option String → Bool
  | none => false
  | some s => !(s == "")

/-- Whitespace as matched by the `\s` class / trimmed by `trim()`
(inputs here are ASCII, so the Unicode cases of `\s` do not arise). -/
def isWsChar (c : Char) : Bool :=
  c == ' ' || c == '\t' || c == '\n' || c == '\r'

/-- A word character for the `\b` assertion: `[A-Za-z0-9_]`. -/
def isWordChar (c : Char) : Bool :=
  c.isAlphanum || c == '_'

/-- `needle` occurs as a contiguous substring of `hay`
(JavaScript `String.prototype.includes`). -/
def listContainsSub (hay needle : List Char) : Bool :=
  match hay with
  | [] => needle.isPrefixOf ([] : List Char)
  | _ :: t => needle.isPrefixOf hay || listContainsSub t needle

/-- JavaScript `haystack.includes(needle)`. -/
def containsSubstr (haystack needle : String) : Bool :=
  listContainsSub haystack.data needle.data

/-- JavaScript `s.trim()` (strip leading and trailing whitespace; the
inputs are ASCII, where the JS and this whitespace set agree). -/
def jsTrim (s : String) : String :=
  String.mk (((s.data.dropWhile isWsChar).reverse.dropWhile isWsChar).reverse)

/-- JavaScript `s.toLowerCase()` (ASCII inputs). -/
def jsToLower (s : String) : String :=
  String.mk (s.data.map Char.toLower)

/-- JavaScript `s.startsWith(pre)`. -/
def jsStartsWith (s pre : String) : Bool :=
  pre.data.isPrefixOf s.data

/-- JavaScript `s.endsWith(post)`. -/
def jsEndsWith (s post : String) : Bool :=
  post.data.isSuffixOf s.data

/-- JavaScript `s.split(sep)` for a one-character separator. -/
def charSplit (sep : Char) : List Char → List (List Char)
  | [] => [[]]
  | c :: rest =>
    match charSplit sep rest with
    | [] => [[]]
    | h :: t => if c == sep then [] :: h :: t else (c :: h) :: t

/-- JavaScript `parts.join(sep)`. -/
def joinWith (sep : List Char) (parts : List (List Char)) : String :=
  String.mk (List.intercalate sep parts)

/-!
## `parseEmailAddress` (src/lib/ingestion/parser.ts)

The source matches the anchored regular expression

  `^(?:"?([^"<]+)"?\s*)?<?([^>]+@[^>]+)>?$`

against the input and, on a match, returns
`{ name: match[1]?.trim() || null, email: match[2].toLowerCase().trim() }`;
on no match it returns `{ name: null, email: address.toLowerCase().trim() }`.

The functions below reproduce the backtracking search of the ECMAScript
engine for exactly this pattern: each greedy quantifier tries its longest
extent first and gives back one character at a time; the optional leading
group tries to participate before being skipped.  The result is the pair of
captured groups of the first match found in that order, or `none`.
-/

/-- Group 2, `([^>]+@[^>]+)` followed by `>?$`, tried with the first `[^>]+`
taking `k` characters for `k = n, n-1, ..., 1` (greedy backtracking).
Succeeds when position `k` holds `'@'`, the second `[^>]+` is nonempty, and
after its maximal extent the remainder is `[]` or `['>']`. -/
def g2Aux : Nat → List Char → Option (List Char)
  | 0, _ => none
  | Nat.succ n, cs =>
    (if cs.get? (n + 1) = some '@' then
      let rest := cs.drop (n + 2)
      let b := rest.takeWhile (· != '>')
      let after := rest.drop b.length
      if b ≠ [] ∧ (after = [] ∨ after = ['>']) then
        some (cs.take (n + 1) ++ '@' :: b)
      else none
    else none).orElse fun _ => g2Aux n cs

/-- Match `([^>]+@[^>]+)>?$` against `cs`, returning the capture. -/
def matchG2 (cs : List Char) : Option (List Char) :=
  g2Aux (cs.takeWhile (· != '>')).length cs

/-- Match `<?([^>]+@[^>]+)>?$`: the greedy `<?` consumes a leading `'<'`
first and falls back to consuming nothing. -/
def matchTail (cs : List Char) : Option (List Char) :=
  match cs with
  | '<' :: rest => (matchG2 rest).orElse fun _ => matchG2 cs
  | _ => matchG2 cs

/-- After group 1 and the optional closing quote: `\s*` (greedy, trying
`j = n, ..., 0` consumed whitespace characters) and then the tail. -/
def wsAux (g1 : List Char) : Nat → List Char → Option (List Char × List Char)
  | 0, rest => (matchTail rest).map fun g2 => (g1, g2)
  | Nat.succ n, rest =>
    ((matchTail (rest.drop (n + 1))).map fun g2 => (g1, g2)).orElse
      fun _ => wsAux g1 n rest

/-- After group 1: the optional closing `"?` (greedy: consume a quote if one
is present, falling back to not consuming it), then `\s*` and the tail. -/
def afterG1 (g1 rest : List Char) : Option (List Char × List Char) :=
  let viaWs : List Char → Option (List Char × List Char) := fun r =>
    wsAux g1 (r.takeWhile isWsChar).length r
  match rest with
  | '"' :: r2 => (viaWs r2).orElse fun _ => viaWs rest
  | _ => viaWs rest

/-- Group 1, `([^"<]+)`, greedy: try `k = n, ..., 1` captured characters. -/
def g1Aux : Nat → List Char → Option (List Char × List Char)
  | 0, _ => none
  | Nat.succ n, cs =>
    (afterG1 (cs.take (n + 1)) (cs.drop (n + 1))).orElse fun _ => g1Aux n cs

/-- The participating leading group after its optional opening quote:
`([^"<]+)"?\s*` then the tail. -/
def frontCore (cs : List Char) : Option (List Char × List Char) :=
  g1Aux (cs.takeWhile (fun c => c != '"' && c != '<')).length cs

/-- The whole anchored pattern: the optional leading group participates
first (with and then without its opening quote), and only if every such
attempt fails is the group skipped. -/
def regexMatch (cs : List Char) : Option (Option (List Char) × List Char) :=
  let withGroup :=
    match cs with
    | '"' :: r => (frontCore r).orElse fun _ => frontCore cs
    | _ => frontCore cs
  match withGroup with
  | some (g1, g2) => some (some g1, g2)
  | none => (matchTail cs).map fun g2 => (none, g2)

/-- The result shape of `parseEmailAddress`. -/
structure EmailAddr where
  name : Option String
  email : String
deriving DecidableEq, Repr

/-- `parseEmailAddress` from src/lib/ingestion/parser.ts. -/
def parseEmailAddress (address : String) : EmailAddr :=
  match regexMatch address.data with
  | some (g1, g2) =>
    let name :=
      match g1 with
      | none => none
      | some l =>
        let t := jsTrim (String.mk l)
        if t == "" then none else some t
    { name := name, email := jsTrim (jsToLower (String.mk g2)) }
  | none => { name := none, email := jsTrim (jsToLower address) }

/-- `extractDomain` from src/lib/ingestion/parser.ts: the part after the
`@` when splitting yields exactly two parts, lowercased; otherwise null. -/
def extractDomain (email : String) : Option String :=
  match charSplit '@' email.data with
  | [_, d] => some (jsToLower (String.mk d))
  | _ => none

/-- `PERSONAL_DOMAINS` from src/lib/ingestion/parser.ts. -/
def PERSONAL_DOMAINS : List String :=
  ["gmail.com", "googlemail.com", "outlook.com", "hotmail.com", "live.com",
   "msn.com", "yahoo.com", "ymail.com", "aol.com", "icloud.com", "me.com",
   "mac.com", "proton.me", "protonmail.com", "tutanota.com", "fastmail.com",
   "zoho.com"]

/-- `isPersonalDomain` from src/lib/ingestion/parser.ts:
`null`/empty domains count as personal; otherwise membership in
`PERSONAL_DOMAINS` after lowercasing. -/
def isPersonalDomain : Option String → Bool
  | none => true
  | some d => if d == "" then true else PERSONAL_DOMAINS.contains (jsToLower d)

/-!
## Meeting classification (src/lib/ingestion/parser.ts)

The subject is tested against unanchored regular expressions with the `i`
flag.  We model the `i` flag by lowercasing the subject (the patterns are
ASCII), and each pattern as a token list:
* `lit w` — a literal word;
* `ws` — `\s+`; in every source pattern the token after `\s+` starts with a
  non-whitespace character, so greedy maximal munch is equivalent to trying
  every split and is used here;
* `alt ws` — an alternation of literal words (`sync|check-?in|...`;
  `check-?in` contributes the two words `check-in` and `checkin`);
* `bnd` — the `\b` assertion (word/non-word boundary).
`RegExp.prototype.test` asks for the existence of a match at some start
position, which `searchFrom` scans for.
-/

/-- A token of one of the source's meeting regular expressions. -/
inductive RTok where
  | lit : List Char → RTok
  | ws : RTok
  | alt : List (List Char) → RTok
  | bnd : RTok

/-- Match a token list at the current position; `prev` is the character just
before the current position (`none` at the start of the subject), used by
the `\b` assertion. -/
def matchToks : List RTok → Option Char → List Char → Bool
  | [], _, _ => true
  | RTok.lit w :: ts, _, cs =>
    w.isPrefixOf cs && matchToks ts w.getLast? (cs.drop w.length)
  | RTok.ws :: ts, _, cs =>
    let run := cs.takeWhile isWsChar
    !run.isEmpty && matchToks ts run.getLast? (cs.drop run.length)
  | RTok.alt ws :: ts, _, cs =>
    ws.any fun w => w.isPrefixOf cs && matchToks ts w.getLast? (cs.drop w.length)
  | RTok.bnd :: ts, prev, cs =>
    let pw := match prev with | some c => isWordChar c | none => false
    let nw := match cs.head? with | some c => isWordChar c | none => false
    (pw != nw) && matchToks ts prev cs

/-- Scan every start position (`test` on an unanchored pattern). -/
def searchFrom (toks : List RTok) : Option Char → List Char → Bool
  | prev, [] => matchToks toks prev []
  | prev, c :: cs => matchToks toks prev (c :: cs) || searchFrom toks (some c) cs

/-- `pattern.test(s)` for a tokenized pattern on the lowercased subject. -/
def testPat (toks : List RTok) (s : String) : Bool :=
  searchFrom toks none s.data

/-- The `sync|check-?in|meeting|call` alternation. -/
def followerAlt : RTok :=
  RTok.alt ["sync".data, "check-in".data, "checkin".data, "meeting".data, "call".data]

/-- `\bqbr\b` -/
def patQbrB : List RTok := [RTok.bnd, RTok.lit "qbr".data, RTok.bnd]

/-- `quarterly\s+business\s+review` (no word boundaries in the source). -/
def patQuarterly : List RTok :=
  [RTok.lit "quarterly".data, RTok.ws, RTok.lit "business".data, RTok.ws,
   RTok.lit "review".data]

/-- `annual\s+review` -/
def patAnnual : List RTok := [RTok.lit "annual".data, RTok.ws, RTok.lit "review".data]

/-- `yearly\s+review` -/
def patYearly : List RTok := [RTok.lit "yearly".data, RTok.ws, RTok.lit "review".data]

/-- `weekly\s+(sync|check-?in|meeting|call)` (no word boundaries). -/
def patWeekly : List RTok := [RTok.lit "weekly".data, RTok.ws, followerAlt]

/-- `deal\s+review` -/
def patDeal : List RTok := [RTok.lit "deal".data, RTok.ws, RTok.lit "review".data]

/-- `pipeline\s+review` -/
def patPipeline : List RTok := [RTok.lit "pipeline".data, RTok.ws, RTok.lit "review".data]

/-- `MEETING_PATTERNS` from src/lib/ingestion/parser.ts — the fallback list;
unlike the inline patterns of `classifyMeeting`, every entry here is wrapped
in `\b ... \b`. -/
def MEETING_PATTERNS : List (List RTok) :=
  [patQbrB,
   [RTok.bnd] ++ patQuarterly ++ [RTok.bnd],
   [RTok.bnd] ++ patAnnual ++ [RTok.bnd],
   [RTok.bnd] ++ patYearly ++ [RTok.bnd],
   [RTok.bnd, RTok.lit "weekly".data, RTok.ws, followerAlt, RTok.bnd],
   [RTok.bnd, RTok.lit "monthly".data, RTok.ws, followerAlt, RTok.bnd],
   [RTok.bnd] ++ patDeal ++ [RTok.bnd],
   [RTok.bnd] ++ patPipeline ++ [RTok.bnd]]

/-- The meeting-type enumeration. -/
inductive MeetingType where
  | QBR
  | ANNUAL_REVIEW
  | WEEKLY_CHECKIN
  | DEAL_REVIEW
  | OTHER
deriving DecidableEq, Repr

/-- The branch cascade of `classifyMeeting`, on the lowercased subject. -/
def classifyMeetingL (s : String) : Option MeetingType :=
  if testPat patQbrB s || testPat patQuarterly s then some MeetingType.QBR
  else if testPat patAnnual s || testPat patYearly s then some MeetingType.ANNUAL_REVIEW
  else if testPat patWeekly s then some MeetingType.WEEKLY_CHECKIN
  else if testPat patDeal s || testPat patPipeline s then some MeetingType.DEAL_REVIEW
  else if MEETING_PATTERNS.any fun p => testPat p s then some MeetingType.OTHER
  else none

/-- `classifyMeeting` from src/lib/ingestion/parser.ts (its regular
expressions all carry the `i` flag, modelled by lowercasing first). -/
def classifyMeeting (subject : String) : Option MeetingType :=
  classifyMeetingL (jsToLower subject)

/-!
## Payload normalization (src/lib/ingestion/parser.ts)
-/

/-- Modelled from the spec: the canonical inbound payload shape of section 6
(`src/lib/ingestion/types.ts` is not under src/; only its field uses are).
`headers` is an association list standing for the string-keyed map. -/
structure InboundEmailPayload where
  messageId : String
  «from» : String
  «to» : List String
  cc : Option (List String)
  bcc : Option (List String)
  subject : String
  textBody : Option String
  htmlBody : Option String
  sentAt : Option String
  headers : Option (List (String × String))
deriving DecidableEq, Repr

/-- Strip every `<` and `>` (the source's `.replace(/[<>]/g, '')`). -/
def stripAngles (s : String) : String :=
  String.mk (s.data.filter fun c => !(c == '<' || c == '>'))

/-- JavaScript `s.split(/\s+/)`: pieces between maximal whitespace runs
(a leading or trailing run contributes an empty piece).  `inRun` records
being inside a whitespace run, whose later characters are skipped. -/
def jsSplitWsAux (inRun : Bool) (cur : List Char) : List Char → List (List Char)
  | [] => [cur]
  | c :: rest =>
    if isWsChar c then
      if inRun then jsSplitWsAux true cur rest
      else cur :: jsSplitWsAux true [] rest
    else jsSplitWsAux false (cur ++ [c]) rest

/-- JavaScript `s.split(/\s+/)` as strings. -/
def jsSplitWs (s : String) : List String :=
  (jsSplitWsAux false [] s.data).map String.mk

/-- Case-preserving lookup in the headers map. -/
def headerGet (hs : List (String × String)) (k : String) : Option String :=
  (hs.find? fun p => p.1 == k).map fun p => p.2

/-- `extractThreadId` from src/lib/ingestion/parser.ts: `in-reply-to`
first (if truthy), else the first `/\s+/`-token of `references` (if
truthy), angle brackets stripped; else null. -/
def extractThreadId (headers : Option (List (String × String))) : Option String :=
  match headers with
  | none => none
  | some hs =>
    let irt := headerGet hs "in-reply-to"
    if truthy irt then (irt.map stripAngles)
    else
      let refs := headerGet hs "references"
      if truthy refs then
        match (jsSplitWs (refs.getD "")).head? with
        | some r => some (stripAngles r)
        | none => none
      else none

/-- The address has the routing shape checked throughout the source:
`email.startsWith('u_') && email.includes('@in.')`. -/
def isRoutingAddress (email : String) : Bool :=
  jsStartsWith email "u_" && containsSubstr email "@in."

/-- The normalized email produced by `parseInboundEmail`.  `sentAt` keeps
the raw string when a truthy one was supplied (`new Date(...)` conversion
is out of scope); `none` stands for "current time at parse". -/
structure ParsedEmail where
  messageId : String
  threadId : Option String
  fromAddress : String
  fromName : Option String
  toAddresses : List String
  ccAddresses : List String
  subject : String
  textBody : Option String
  htmlBody : Option String
  sentAt : Option String
  bccRecipient : Option String
deriving DecidableEq, Repr

/-- JavaScript `x || null` on a nullable string. -/
def jsOrNull (o : Option String) : Option String :=
  if truthy o then o else none

/-- `parseInboundEmail` from src/lib/ingestion/parser.ts. -/
def parseInboundEmail (payload : InboundEmailPayload) : ParsedEmail :=
  let fromParsed := parseEmailAddress payload.«from»
  let bccRecipient :=
    (payload.bcc.getD []).find? fun addr =>
      isRoutingAddress (parseEmailAddress addr).email
  { messageId := payload.messageId
    threadId := extractThreadId payload.headers
    fromAddress := fromParsed.email
    fromName := fromParsed.name
    toAddresses := payload.«to».map fun addr => (parseEmailAddress addr).email
    ccAddresses := (payload.cc.getD []).map fun addr => (parseEmailAddress addr).email
    subject := payload.subject
    textBody := jsOrNull payload.textBody
    htmlBody := jsOrNull payload.htmlBody
    sentAt := jsOrNull payload.sentAt
    bccRecipient := bccRecipient.map fun b => (parseEmailAddress b).email }

/-- A participant extracted from a message. -/
structure ExtractedContact where
  email : String
  name : Option String
  domain : Option String
deriving DecidableEq, Repr

/-- The To/Cc loops of `extractContacts`: skip addresses whose parsed email
has the routing shape, and keep the first occurrence per email (the
insertion-ordered `Map` with a `has` guard). -/
def addRecipients (acc : List ExtractedContact) : List String → List ExtractedContact
  | [] => acc
  | addr :: rest =>
    let parsed := parseEmailAddress addr
    if isRoutingAddress parsed.email then addRecipients acc rest
    else if acc.any fun c => c.email == parsed.email then addRecipients acc rest
    else
      addRecipients
        (acc ++ [{ email := parsed.email, name := parsed.name,
                   domain := extractDomain parsed.email }]) rest

/-- `extractContacts` from src/lib/ingestion/parser.ts: the sender is added
unconditionally, then the To and Cc recipients. -/
def extractContacts (payload : InboundEmailPayload) : List ExtractedContact :=
  let fromParsed := parseEmailAddress payload.«from»
  let senderOnly : List ExtractedContact :=
    [{ email := fromParsed.email, name := fromParsed.name,
       domain := extractDomain fromParsed.email }]
  addRecipients (addRecipients senderOnly payload.«to») (payload.cc.getD [])

/-!
## The persisted state (the Prisma store) and src/lib/ingestion/handler.ts

Rows carry `Nat` ids issued from a counter; `findUnique`/`findFirst` become
`List.find?` over insertion-ordered row lists.
-/

/-- A User row (the fields the handler reads). -/
structure User where
  id : Nat
  bccAddress : String
deriving DecidableEq, Repr

/-- An Org row. -/
structure Org where
  id : Nat
  userId : Nat
  domain : String
  name : String
deriving DecidableEq, Repr

/-- A Contact row. -/
structure Contact where
  id : Nat
  userId : Nat
  email : String
  name : Option String
  orgId : Option Nat
deriving DecidableEq, Repr

/-- A Meeting row. -/
structure Meeting where
  id : Nat
  userId : Nat
  title : String
  meetingType : MeetingType
  orgId : Option Nat
deriving DecidableEq, Repr

/-- An EmailMessage row. -/
structure EmailMessage where
  userId : Nat
  messageId : String
  threadId : Option String
  fromAddress : String
  toAddresses : List String
  ccAddresses : List String
  subject : String
  textBody : Option String
  htmlBody : Option String
  sentAt : Option String
  meetingId : Option Nat
  dealId : Option Nat
deriving DecidableEq, Repr

/-- The store. -/
structure Db where
  users : List User
  orgs : List Org
  contacts : List Contact
  meetings : List Meeting
  emails : List EmailMessage
  nextId : Nat
deriving DecidableEq, Repr

/-- `formatOrgName`'s TLD strip: the first alternative of
`\.(com|io|co|org|net|app|dev)$` that matches at the end is removed (no two
alternatives can match the same end, so trying them in order is faithful). -/
def stripTld (domain : String) : String :=
  match ["com", "io", "co", "org", "net", "app", "dev"].find?
      (fun s => jsEndsWith domain ("." ++ s)) with
  | some s => String.mk (domain.data.take (domain.data.length - (s.data.length + 1)))
  | none => domain

/-- `.replace(/[-_]/g, ' ')` -/
def replaceDashUnderscore (s : String) : String :=
  String.mk (s.data.map fun c => if c == '-' || c == '_' then ' ' else c)

/-- `word.charAt(0).toUpperCase() + word.slice(1)` -/
def capFirst (w : String) : String :=
  match w.data with
  | [] => ""
  | c :: rest => String.mk (c.toUpper :: rest)

/-- `formatOrgName` from src/lib/ingestion/handler.ts. -/
def formatOrgName (domain : String) : String :=
  joinWith [' ']
    ((charSplit ' ' (replaceDashUnderscore (stripTld domain)).data).map
      (fun w => (capFirst (String.mk w)).data))

/-- `upsertOrg` from src/lib/ingestion/handler.ts: find by the unique
`(userId, domain)` or create with the derived name. -/
def upsertOrg (db : Db) (userId : Nat) (domain : String) : Db × Org :=
  match db.orgs.find? fun o => o.userId == userId && o.domain == domain with
  | some o => (db, o)
  | none =>
    let org : Org := { id := db.nextId, userId := userId, domain := domain,
                       name := formatOrgName domain }
    ({ db with orgs := db.orgs ++ [org], nextId := db.nextId + 1 }, org)

/-- The single-field update `contact.update({ where: { id }, data: { name } })`. -/
def patchName (id : Nat) (name : Option String) (k : Contact) : Contact :=
  if k.id == id then { k with name := name } else k

/-- `upsertContact` from src/lib/ingestion/handler.ts: find by the unique
`(userId, email)`; when found, patch the name only under the JavaScript
test `contact.name && !existingContact.name`, and return the row as found;
otherwise create. -/
def upsertContact (db : Db) (userId : Nat) (contact : ExtractedContact)
    (orgId : Option Nat) : Db × Contact :=
  match db.contacts.find? fun k => k.userId == userId && k.email == contact.email with
  | some existingContact =>
    if truthy contact.name && !truthy existingContact.name then
      ({ db with contacts := db.contacts.map (patchName existingContact.id contact.name) },
       existingContact)
    else (db, existingContact)
  | none =>
    let row : Contact := { id := db.nextId, userId := userId,
                           email := contact.email, name := contact.name,
                           orgId := orgId }
    ({ db with contacts := db.contacts ++ [row], nextId := db.nextId + 1 }, row)

/-- `upsertMeeting` from src/lib/ingestion/handler.ts: `findFirst` with a
case-insensitive title equality (modelled as `toLower` equality), scanning
rows in insertion order; create when absent. -/
def upsertMeeting (db : Db) (userId : Nat) (title : String) (meetingType : MeetingType)
    (orgId : Option Nat) : Db × Meeting :=
  match db.meetings.find? fun m =>
      m.userId == userId && jsToLower m.title == jsToLower title with
  | some existingMeeting => (db, existingMeeting)
  | none =>
    let row : Meeting := { id := db.nextId, userId := userId, title := title,
                           meetingType := meetingType, orgId := orgId }
    ({ db with meetings := db.meetings ++ [row], nextId := db.nextId + 1 }, row)

/-- Modelled from the spec: the Prisma schema is not under src/.  Section 3
declares EmailMessage "uniquely identified by `(userId, messageId)`" and
section 6 requires the store to surface "a distinguishable 'duplicate key'
failure" on that key; the duplicate-create error text is the one the
repository's own handler test injects.  A successful create appends the
row; a duplicate create leaves the store unchanged and returns the error. -/
def emailMessageCreate (db : Db) (row : EmailMessage) : Db × Option String :=
  if db.emails.any fun e => e.userId == row.userId && e.messageId == row.messageId then
    (db, some "Unique constraint failed on the constraint: `EmailMessage_userId_messageId_key`")
  else ({ db with emails := db.emails ++ [row] }, none)

/-- The `try/catch` around the EmailMessage create in `handleInboundEmail`:
an error whose message contains `'Unique constraint'` is swallowed (the
handler returns normally with the pre-create state); any other error
propagates. -/
def catchDuplicate (db : Db) (res : Db × Option String) : Db × Option String :=
  match res.2 with
  | none => res
  | some e =>
    if containsSubstr e "Unique constraint" then (db, none) else (db, some e)

/-- Step 6 of the handler: create the EmailMessage under the `try/catch`. -/
def step6 (db : Db) (row : EmailMessage) : Db × Option String :=
  catchDuplicate db (emailMessageCreate db row)

/-- `contactToOrg.set(email, v)` on the insertion-ordered map, modelled as
an association list: overwrite an existing key, else append. -/
def mapSet (m : List (String × Option Nat)) (k : String) (v : Option Nat) :
    List (String × Option Nat) :=
  if m.any fun p => p.1 == k then
    m.map fun p => if p.1 == k then (k, v) else p
  else m ++ [(k, v)]

/-- `contactToOrg.get(email)`: `none` is JavaScript `undefined`. -/
def mapGet (m : List (String × Option Nat)) (k : String) : Option (Option Nat) :=
  (m.find? fun p => p.1 == k).map fun p => p.2

/-- Step 4 of `handleInboundEmail`: the per-participant loop.  A personal
domain yields a contact without an org; otherwise the org is upserted for
the participant's domain (`contact.domain!` — in this branch the domain is
necessarily non-null, since `isPersonalDomain none = true`; the `getD ""`
realizes the TypeScript non-null assertion). -/
def processContacts (db : Db) (userId : Nat) :
    List ExtractedContact → List (String × Option Nat) → Db × List (String × Option Nat)
  | [], contactToOrg => (db, contactToOrg)
  | contact :: rest, contactToOrg =>
    if isPersonalDomain contact.domain then
      processContacts (upsertContact db userId contact none).1 userId rest
        (mapSet contactToOrg contact.email none)
    else
      let r1 := upsertOrg db userId (contact.domain.getD "")
      processContacts (upsertContact r1.1 userId contact (some r1.2.id)).1 userId rest
        (mapSet contactToOrg contact.email (some r1.2.id))

/-- Step 5 of `handleInboundEmail`: when the subject classifies as a
meeting, upsert the meeting with the org resolved for the first extracted
participant (`orgId || null` collapses a missing map entry to null). -/
def processMeeting (db : Db) (userId : Nat) (subject : String)
    (meetingType : Option MeetingType) (extractedContacts : List ExtractedContact)
    (contactToOrg : List (String × Option Nat)) : Db × Option Nat :=
  match meetingType with
  | none => (db, none)
  | some mt =>
    let orgId : Option Nat :=
      match extractedContacts.head? with
      | none => none
      | some primaryContact => (mapGet contactToOrg primaryContact.email).getD none
    let r := upsertMeeting db userId subject mt orgId
    (r.1, some r.2.id)

/-- Steps 1–3 of `handleInboundEmail`: the routing address is the parsed
`bccRecipient` if present, else the first entry of `toAddresses` with the
routing shape; the owning user is found by unique `bccAddress`. -/
def routingAddressOf (parsedEmail : ParsedEmail) : Option String :=
  match parsedEmail.bccRecipient with
  | some a => some a
  | none => parsedEmail.toAddresses.find? isRoutingAddress

/-- The owning user resolved by `handleInboundEmail` for a payload. -/
def routeUser (db : Db) (payload : InboundEmailPayload) : Option User :=
  match routingAddressOf (parseInboundEmail payload) with
  | none => none
  | some addr => db.users.find? fun u => u.bccAddress == addr

/-- The EmailMessage row built in step 6 of the handler. -/
def mkRow (userId : Nat) (parsedEmail : ParsedEmail) (meetingId : Option Nat) :
    EmailMessage :=
  { userId := userId
    messageId := parsedEmail.messageId
    threadId := parsedEmail.threadId
    fromAddress := parsedEmail.fromAddress
    toAddresses := parsedEmail.toAddresses
    ccAddresses := parsedEmail.ccAddresses
    subject := parsedEmail.subject
    textBody := parsedEmail.textBody
    htmlBody := parsedEmail.htmlBody
    sentAt := parsedEmail.sentAt
    meetingId := meetingId
    dealId := none }

/-- `handleInboundEmail` from src/lib/ingestion/handler.ts.  The result is
the post-call store plus `none` for a normal return or `some e` for a
thrown error `e`; the unroutable and unknown-user cases log and return
normally with the store untouched. -/
def handleInboundEmail (db : Db) (payload : InboundEmailPayload) : Db × Option String :=
  let parsedEmail := parseInboundEmail payload
  match routeUser db payload with
  | none => (db, none)
  | some user =>
    let extractedContacts := extractContacts payload
    let r1 := processContacts db user.id extractedContacts []
    let meetingType := classifyMeeting parsedEmail.subject
    let r2 :=
      processMeeting r1.1 user.id parsedEmail.subject meetingType extractedContacts r1.2
    step6 r2.1 (mkRow user.id parsedEmail r2.2)

/-- The number of EmailMessage rows for a `(userId, messageId)` key. -/
def countEmails (db : Db) (userId : Nat) (messageId : String) : Nat :=
  (db.emails.filter fun e => e.userId == userId && e.messageId == messageId).length

/-- The number of Org rows for a `(userId, domain)` key. -/
def countOrgs (db : Db) (userId : Nat) (domain : String) : Nat :=
  (db.orgs.filter fun o => o.userId == userId && o.domain == domain).length

/-- No Organization row has a personal domain. -/
def orgsOk (db : Db) : Prop :=
  ∀ o ∈ db.orgs, isPersonalDomain (some o.domain) = false

/-- The Contact rows filed under a `(userId, email)` key. -/
def contactsFor (db : Db) (userId : Nat) (email : String) : List Contact :=
  db.contacts.filter fun k => k.userId == userId && k.email == email

/-!
## Concrete fixtures used by the claim witnesses and counterexamples
-/

/-- A store holding one user whose routing address is `u_x@in.c`. -/
def dbU : Db :=
  { users := [{ id := 1, bccAddress := "u_x@in.c" }],
    orgs := [], contacts := [], meetings := [], emails := [], nextId := 10 }

/-- A store holding one user whose routing address is the bare
`u_abc123@in.example.com` of the spec's routing example. -/
def dbRoute : Db :=
  { users := [{ id := 1, bccAddress := "u_abc123@in.example.com" }],
    orgs := [], contacts := [], meetings := [], emails := [], nextId := 10 }

/-- The payload of the spec's routing example: bare
`to: ["u_abc123@in.example.com", "jane@company.com"]` and no `bcc`. -/
def payloadRoute : InboundEmailPayload :=
  { messageId := "m2", «from» := "boss@acme.com",
    «to» := ["u_abc123@in.example.com", "jane@company.com"],
    cc := none, bcc := none, subject := "hello", textBody := none,
    htmlBody := none, sentAt := none, headers := none }

/-- A routable payload (angle-bracketed addresses parse cleanly). -/
def payloadQbr : InboundEmailPayload :=
  { messageId := "m1", «from» := "<ann@acme.com>", «to» := ["<bob@acme.com>"],
    cc := none, bcc := some ["<u_x@in.c>"], subject := "Q4 QBR",
    textBody := some "hi", htmlBody := none, sentAt := none, headers := none }

/-- The same conversation re-sent with a case-different subject. -/
def payloadQbrLower : InboundEmailPayload :=
  { messageId := "m3", «from» := "<ann@acme.com>", «to» := ["<bob@acme.com>"],
    cc := none, bcc := some ["<u_x@in.c>"], subject := "q4 qbr",
    textBody := some "hi", htmlBody := none, sentAt := none, headers := none }

/-- A routable payload from a personal (gmail.com) sender. -/
def payloadGmail : InboundEmailPayload :=
  { messageId := "mg", «from» := "<ann@gmail.com>", «to» := [],
    cc := none, bcc := some ["<u_x@in.c>"], subject := "s", textBody := none,
    htmlBody := none, sentAt := none, headers := none }

/-- A payload whose sender is the system routing address itself. -/
def payloadSelf : InboundEmailPayload :=
  { messageId := "m9", «from» := "<u_x@in.c>", «to» := ["<u_x@in.c>"],
    cc := none, bcc := none, subject := "s", textBody := none,
    htmlBody := none, sentAt := none, headers := none }

/-- A store holding one existing Contact with no name yet. -/
def dbContact : Db :=
  { users := [], orgs := [],
    contacts := [{ id := 5, userId := 1, email := "a@b.c", name := none, orgId := none }],
    meetings := [], emails := [], nextId := 6 }

/-- An incoming participant carrying a display name for that contact. -/
def annContact : ExtractedContact :=
  { email := "a@b.c", name := some "Ann", domain := some "b.c" }

/-!
## Supporting lemmas
-/

theorem patchName_id (i : Nat) (nm : Option String) (k : Contact) :
    (patchName i nm k).id = k.id := by
  unfold patchName; split <;> rfl

theorem patchName_userId (i : Nat) (nm : Option String) (k : Contact) :
    (patchName i nm k).userId = k.userId := by
  unfold patchName; split <;> rfl

theorem patchName_email (i : Nat) (nm : Option String) (k : Contact) :
    (patchName i nm k).email = k.email := by
  unfold patchName; split <;> rfl

theorem patchName_orgId (i : Nat) (nm : Option String) (k : Contact) :
    (patchName i nm k).orgId = k.orgId := by
  unfold patchName; split <;> rfl

theorem upsertOrg_users (db : Db) (uid : Nat) (d : String) :
    ((upsertOrg db uid d).1.users = db.users) := by
  unfold upsertOrg; split <;> rfl

theorem upsertOrg_contacts (db : Db) (uid : Nat) (d : String) :
    ((upsertOrg db uid d).1.contacts = db.contacts) := by
  unfold upsertOrg; split <;> rfl

theorem upsertOrg_meetings (db : Db) (uid : Nat) (d : String) :
    ((upsertOrg db uid d).1.meetings = db.meetings) := by
  unfold upsertOrg; split <;> rfl

theorem upsertOrg_emails (db : Db) (uid : Nat) (d : String) :
    ((upsertOrg db uid d).1.emails = db.emails) := by
  unfold upsertOrg; split <;> rfl

theorem upsertContact_users (db : Db) (uid : Nat) (c : ExtractedContact) (o : Option Nat) :
    ((upsertContact db uid c o).1.users = db.users) := by
  unfold upsertContact; split <;> [skip; rfl]; split <;> rfl

theorem upsertContact_orgs (db : Db) (uid : Nat) (c : ExtractedContact) (o : Option Nat) :
    ((upsertContact db uid c o).1.orgs = db.orgs) := by
  unfold upsertContact; split <;> [skip; rfl]; split <;> rfl

theorem upsertContact_meetings (db : Db) (uid : Nat) (c : ExtractedContact) (o : Option Nat) :
    ((upsertContact db uid c o).1.meetings = db.meetings) := by
  unfold upsertContact; split <;> [skip; rfl]; split <;> rfl

theorem upsertContact_emails (db : Db) (uid : Nat) (c : ExtractedContact) (o : Option Nat) :
    ((upsertContact db uid c o).1.emails = db.emails) := by
  unfold upsertContact; split <;> [skip; rfl]; split <;> rfl

theorem upsertMeeting_users (db : Db) (uid : Nat) (t : String) (mt : MeetingType)
    (o : Option Nat) : ((upsertMeeting db uid t mt o).1.users = db.users) := by
  unfold upsertMeeting; split <;> rfl

theorem upsertMeeting_orgs (db : Db) (uid : Nat) (t : String) (mt : MeetingType)
    (o : Option Nat) : ((upsertMeeting db uid t mt o).1.orgs = db.orgs) := by
  unfold upsertMeeting; split <;> rfl

theorem upsertMeeting_contacts (db : Db) (uid : Nat) (t : String) (mt : MeetingType)
    (o : Option Nat) : ((upsertMeeting db uid t mt o).1.contacts = db.contacts) := by
  unfold upsertMeeting; split <;> rfl

theorem upsertMeeting_emails (db : Db) (uid : Nat) (t : String) (mt : MeetingType)
    (o : Option Nat) : ((upsertMeeting db uid t mt o).1.emails = db.emails) := by
  unfold upsertMeeting; split <;> rfl

theorem processContacts_users (uid : Nat) (cs : List ExtractedContact) :
    ∀ (db : Db) (m : List (String × Option Nat)),
      (processContacts db uid cs m).1.users = db.users := by
  induction cs with
  | nil => intro db m; rfl
  | cons c rest ih =>
    intro db m
    simp only [processContacts]
    split
    · rw [ih, upsertContact_users]
    · rw [ih, upsertContact_users, upsertOrg_users]

theorem processContacts_meetings (uid : Nat) (cs : List ExtractedContact) :
    ∀ (db : Db) (m : List (String × Option Nat)),
      (processContacts db uid cs m).1.meetings = db.meetings := by
  induction cs with
  | nil => intro db m; rfl
  | cons c rest ih =>
    intro db m
    simp only [processContacts]
    split
    · rw [ih, upsertContact_meetings]
    · rw [ih, upsertContact_meetings, upsertOrg_meetings]

theorem processContacts_emails (uid : Nat) (cs : List ExtractedContact) :
    ∀ (db : Db) (m : List (String × Option Nat)),
      (processContacts db uid cs m).1.emails = db.emails := by
  induction cs with
  | nil => intro db m; rfl
  | cons c rest ih =>
    intro db m
    simp only [processContacts]
    split
    · rw [ih, upsertContact_emails]
    · rw [ih, upsertContact_emails, upsertOrg_emails]

theorem processMeeting_users (db : Db) (uid : Nat) (s : String) (mt : Option MeetingType)
    (cs : List ExtractedContact) (m : List (String × Option Nat)) :
    (processMeeting db uid s mt cs m).1.users = db.users := by
  unfold processMeeting; split
  · rfl
  · exact upsertMeeting_users ..

theorem processMeeting_orgs (db : Db) (uid : Nat) (s : String) (mt : Option MeetingType)
    (cs : List ExtractedContact) (m : List (String × Option Nat)) :
    (processMeeting db uid s mt cs m).1.orgs = db.orgs := by
  unfold processMeeting; split
  · rfl
  · exact upsertMeeting_orgs ..

theorem processMeeting_contacts (db : Db) (uid : Nat) (s : String) (mt : Option MeetingType)
    (cs : List ExtractedContact) (m : List (String × Option Nat)) :
    (processMeeting db uid s mt cs m).1.contacts = db.contacts := by
  unfold processMeeting; split
  · rfl
  · exact upsertMeeting_contacts ..

theorem processMeeting_emails (db : Db) (uid : Nat) (s : String) (mt : Option MeetingType)
    (cs : List ExtractedContact) (m : List (String × Option Nat)) :
    (processMeeting db uid s mt cs m).1.emails = db.emails := by
  unfold processMeeting; split
  · rfl
  · exact upsertMeeting_emails ..

theorem step6_users (db : Db) (row : EmailMessage) : (step6 db row).1.users = db.users := by
  unfold step6 catchDuplicate emailMessageCreate
  split <;> split <;> simp_all

theorem step6_orgs (db : Db) (row : EmailMessage) : (step6 db row).1.orgs = db.orgs := by
  unfold step6 catchDuplicate emailMessageCreate
  split <;> split <;> simp_all

theorem step6_contacts (db : Db) (row : EmailMessage) :
    (step6 db row).1.contacts = db.contacts := by
  unfold step6 catchDuplicate emailMessageCreate
  split <;> split <;> simp_all

theorem step6_meetings (db : Db) (row : EmailMessage) :
    (step6 db row).1.meetings = db.meetings := by
  unfold step6 catchDuplicate emailMessageCreate
  split <;> split <;> simp_all

theorem dupMessage_contains :
    containsSubstr
      "Unique constraint failed on the constraint: `EmailMessage_userId_messageId_key`"
      "Unique constraint" = true := by decide

theorem step6_fresh (db : Db) (row : EmailMessage)
    (h : (db.emails.any fun e =>
        e.userId == row.userId && e.messageId == row.messageId) = false) :
    step6 db row = ({ db with emails := db.emails ++ [row] }, none) := by
  unfold step6 emailMessageCreate catchDuplicate
  rw [h]; rfl

theorem step6_dup (db : Db) (row : EmailMessage)
    (h : (db.emails.any fun e =>
        e.userId == row.userId && e.messageId == row.messageId) = true) :
    step6 db row = (db, none) := by
  unfold step6 emailMessageCreate catchDuplicate
  rw [h]
  simp only [if_true, dupMessage_contains]

theorem countEmails_zero_any (db : Db) (uid : Nat) (mid : String)
    (h : countEmails db uid mid = 0) :
    (db.emails.any fun e => e.userId == uid && e.messageId == mid) = false := by
  unfold countEmails at h
  rw [List.length_eq_zero, List.filter_eq_nil_iff] at h
  rw [List.any_eq_false]
  exact h

theorem countEmails_pos_any (db : Db) (uid : Nat) (mid : String)
    (h : countEmails db uid mid = 1) :
    (db.emails.any fun e => e.userId == uid && e.messageId == mid) = true := by
  unfold countEmails at h
  rw [List.length_eq_one] at h
  obtain ⟨r, hr⟩ := h
  rw [List.any_eq_true]
  have : r ∈ db.emails.filter fun e => e.userId == uid && e.messageId == mid := by
    rw [hr]; exact List.mem_singleton.mpr rfl
  rw [List.mem_filter] at this
  exact ⟨r, this.1, this.2⟩

theorem countEmails_congr (db db' : Db) (uid : Nat) (mid : String)
    (h : db'.emails = db.emails) : countEmails db' uid mid = countEmails db uid mid := by
  unfold countEmails; rw [h]

theorem countEmails_append_hit (db : Db) (row : EmailMessage) (uid : Nat) (mid : String)
    (hu : row.userId = uid) (hm : row.messageId = mid) :
    countEmails { db with emails := db.emails ++ [row] } uid mid =
      countEmails db uid mid + 1 := by
  unfold countEmails
  simp only [List.filter_append, List.length_append]
  have : (List.filter (fun e => e.userId == uid && e.messageId == mid) [row]).length = 1 := by
    simp [List.filter, hu, hm]
  omega

theorem routeUser_congr (db db' : Db) (p : InboundEmailPayload)
    (h : db'.users = db.users) : routeUser db' p = routeUser db p := by
  unfold routeUser
  cases routingAddressOf (parseInboundEmail p) with
  | none => rfl
  | some a => simp only [h]

theorem handleInboundEmail_unrouted (db : Db) (p : InboundEmailPayload)
    (h : routeUser db p = none) : handleInboundEmail db p = (db, none) := by
  unfold handleInboundEmail
  rw [h]

theorem handleInboundEmail_routed (db : Db) (p : InboundEmailPayload) (u : User)
    (h : routeUser db p = some u) :
    handleInboundEmail db p =
      step6
        (processMeeting (processContacts db u.id (extractContacts p) []).1 u.id
          (parseInboundEmail p).subject (classifyMeeting (parseInboundEmail p).subject)
          (extractContacts p) (processContacts db u.id (extractContacts p) []).2).1
        (mkRow u.id (parseInboundEmail p)
          (processMeeting (processContacts db u.id (extractContacts p) []).1 u.id
            (parseInboundEmail p).subject (classifyMeeting (parseInboundEmail p).subject)
            (extractContacts p) (processContacts db u.id (extractContacts p) []).2).2) := by
  unfold handleInboundEmail
  rw [h]

theorem mkRow_userId (uid : Nat) (pe : ParsedEmail) (mid : Option Nat) :
    (mkRow uid pe mid).userId = uid := rfl

theorem mkRow_messageId (uid : Nat) (pe : ParsedEmail) (mid : Option Nat) :
    (mkRow uid pe mid).messageId = pe.messageId := rfl

theorem preSteps_emails (db : Db) (uid : Nat) (p : InboundEmailPayload)
    (mt : Option MeetingType) :
    (processMeeting (processContacts db uid (extractContacts p) []).1 uid
        (parseInboundEmail p).subject mt (extractContacts p)
        (processContacts db uid (extractContacts p) []).2).1.emails = db.emails := by
  rw [processMeeting_emails, processContacts_emails]

theorem preSteps_users (db : Db) (uid : Nat) (p : InboundEmailPayload)
    (mt : Option MeetingType) :
    (processMeeting (processContacts db uid (extractContacts p) []).1 uid
        (parseInboundEmail p).subject mt (extractContacts p)
        (processContacts db uid (extractContacts p) []).2).1.users = db.users := by
  rw [processMeeting_users, processContacts_users]

/-- One routed run: the handler returns normally and appends exactly one
EmailMessage row for `(u.id, p.messageId)` when none was present. -/
theorem handle_first_run (db : Db) (p : InboundEmailPayload) (u : User)
    (h : routeUser db p = some u) (h0 : countEmails db u.id p.messageId = 0) :
    (handleInboundEmail db p).2 = none ∧
      countEmails (handleInboundEmail db p).1 u.id p.messageId = 1 ∧
      (handleInboundEmail db p).1.users = db.users := by
  rw [handleInboundEmail_routed db p u h]
  set dbPre := (processMeeting (processContacts db u.id (extractContacts p) []).1 u.id
      (parseInboundEmail p).subject (classifyMeeting (parseInboundEmail p).subject)
      (extractContacts p) (processContacts db u.id (extractContacts p) []).2).1 with hdbPre
  set row := mkRow u.id (parseInboundEmail p)
      (processMeeting (processContacts db u.id (extractContacts p) []).1 u.id
        (parseInboundEmail p).subject (classifyMeeting (parseInboundEmail p).subject)
        (extractContacts p) (processContacts db u.id (extractContacts p) []).2).2 with hrow
  have hep : dbPre.emails = db.emails := by
    rw [hdbPre]; exact preSteps_emails db u.id p _
  have hc0 : countEmails dbPre u.id p.messageId = 0 := by
    rw [countEmails_congr db dbPre u.id p.messageId hep]; exact h0
  have hany : (dbPre.emails.any fun e =>
      e.userId == row.userId && e.messageId == row.messageId) = false := by
    have := countEmails_zero_any dbPre u.id p.messageId hc0
    rw [hrow, mkRow_userId]
    have hm : (mkRow u.id (parseInboundEmail p)
        (processMeeting (processContacts db u.id (extractContacts p) []).1 u.id
          (parseInboundEmail p).subject (classifyMeeting (parseInboundEmail p).subject)
          (extractContacts p)
          (processContacts db u.id (extractContacts p) []).2).2).messageId =
        p.messageId := rfl
    rw [hm]
    exact this
  rw [step6_fresh dbPre row hany]
  refine ⟨rfl, ?_, ?_⟩
  · rw [countEmails_append_hit dbPre row u.id p.messageId (by rw [hrow, mkRow_userId])
      (by rw [hrow]; rfl), hc0]
  · show dbPre.users = db.users
    rw [hdbPre]; exact preSteps_users db u.id p _

/-- A routed re-run against a store that already holds the row: the
duplicate-create error is swallowed and no second row appears. -/
theorem handle_second_run (db : Db) (p : InboundEmailPayload) (u : User)
    (h : routeUser db p = some u) (h1 : countEmails db u.id p.messageId = 1) :
    (handleInboundEmail db p).2 = none ∧
      countEmails (handleInboundEmail db p).1 u.id p.messageId = 1 := by
  rw [handleInboundEmail_routed db p u h]
  set dbPre := (processMeeting (processContacts db u.id (extractContacts p) []).1 u.id
      (parseInboundEmail p).subject (classifyMeeting (parseInboundEmail p).subject)
      (extractContacts p) (processContacts db u.id (extractContacts p) []).2).1 with hdbPre
  set row := mkRow u.id (parseInboundEmail p)
      (processMeeting (processContacts db u.id (extractContacts p) []).1 u.id
        (parseInboundEmail p).subject (classifyMeeting (parseInboundEmail p).subject)
        (extractContacts p) (processContacts db u.id (extractContacts p) []).2).2 with hrow
  have hep : dbPre.emails = db.emails := by
    rw [hdbPre]; exact preSteps_emails db u.id p _
  have hc1 : countEmails dbPre u.id p.messageId = 1 := by
    rw [countEmails_congr db dbPre u.id p.messageId hep]; exact h1
  have hany : (dbPre.emails.any fun e =>
      e.userId == row.userId && e.messageId == row.messageId) = true := by
    have := countEmails_pos_any dbPre u.id p.messageId hc1
    rw [hrow, mkRow_userId]
    have hm : (mkRow u.id (parseInboundEmail p)
        (processMeeting (processContacts db u.id (extractContacts p) []).1 u.id
          (parseInboundEmail p).subject (classifyMeeting (parseInboundEmail p).subject)
          (extractContacts p)
          (processContacts db u.id (extractContacts p) []).2).2).messageId =
        p.messageId := rfl
    rw [hm]
    exact this
  rw [step6_dup dbPre row hany]
  exact ⟨rfl, hc1⟩

theorem orgsOk_congr (db db' : Db) (h : db'.orgs = db.orgs) (hk : orgsOk db) :
    orgsOk db' := by
  unfold orgsOk at hk ⊢
  rw [h]
  exact hk

theorem upsertOrg_orgsOk (db : Db) (uid : Nat) (d : String)
    (hd : isPersonalDomain (some d) = false) (hk : orgsOk db) :
    orgsOk (upsertOrg db uid d).1 := by
  unfold upsertOrg
  split
  · exact hk
  · intro o ho
    simp only [List.mem_append, List.mem_singleton] at ho
    rcases ho with ho | ho
    · exact hk o ho
    · rw [ho]
      exact hd

theorem processContacts_orgsOk (uid : Nat) (cs : List ExtractedContact) :
    ∀ (db : Db) (m : List (String × Option Nat)), orgsOk db →
      orgsOk (processContacts db uid cs m).1 := by
  induction cs with
  | nil => intro db m hk; exact hk
  | cons c rest ih =>
    intro db m hk
    simp only [processContacts]
    split
    · refine ih _ _ ?_
      exact orgsOk_congr db _ (upsertContact_orgs ..) hk
    · rename_i hp
      have hd : isPersonalDomain (some (c.domain.getD "")) = false := by
        cases hdom : c.domain with
        | none => rw [hdom] at hp; simp [isPersonalDomain] at hp
        | some d =>
          rw [hdom] at hp
          simpa using Bool.of_not_eq_true hp
      refine ih _ _ ?_
      refine orgsOk_congr _ _ (upsertContact_orgs ..) ?_
      exact upsertOrg_orgsOk db uid (c.domain.getD "") hd hk

theorem handleInboundEmail_orgsOk (db : Db) (p : InboundEmailPayload) (hk : orgsOk db) :
    orgsOk (handleInboundEmail db p).1 := by
  cases hr : routeUser db p with
  | none => rw [handleInboundEmail_unrouted db p hr]; exact hk
  | some u =>
    rw [handleInboundEmail_routed db p u hr]
    refine orgsOk_congr _ _ (step6_orgs ..) ?_
    refine orgsOk_congr _ _ (processMeeting_orgs ..) ?_
    exact processContacts_orgsOk u.id (extractContacts p) db [] hk

theorem contactsFor_congr (db db' : Db) (uid : Nat) (em : String)
    (h : db'.contacts = db.contacts) : contactsFor db' uid em = contactsFor db uid em := by
  unfold contactsFor; rw [h]

theorem contactsFor_patch (db : Db) (i : Nat) (nm : Option String) (uid : Nat) (em : String) :
    contactsFor { db with contacts := db.contacts.map (patchName i nm) } uid em =
      (contactsFor db uid em).map (patchName i nm) := by
  unfold contactsFor
  show List.filter _ (db.contacts.map (patchName i nm)) = _
  rw [List.filter_map]
  have hp : ((fun k => k.userId == uid && k.email == em) ∘ patchName i nm) =
      fun k : Contact => k.userId == uid && k.email == em := by
    funext k
    simp only [Function.comp_apply, patchName_userId, patchName_email]
  rw [hp]

theorem contactsFor_append_ne (db : Db) (row : Contact) (uid : Nat) (em : String)
    (hne : row.email ≠ em) :
    contactsFor { db with contacts := db.contacts ++ [row] } uid em =
      contactsFor db uid em := by
  unfold contactsFor
  show List.filter _ (db.contacts ++ [row]) = _
  rw [List.filter_append]
  have : (List.filter (fun k => k.userId == uid && k.email == em) [row]) = [] := by
    have hb : (row.email == em) = false := beq_eq_false_iff_ne.mpr hne
    simp [List.filter, hb]
  rw [this, List.append_nil]

/-- `upsertContact` for an email other than `em` either leaves the
`(uid, em)` rows untouched or name-patches them in place. -/
theorem upsertContact_contactsFor_ne (db : Db) (uid : Nat) (c : ExtractedContact)
    (o : Option Nat) (em : String) (hne : c.email ≠ em) :
    contactsFor (upsertContact db uid c o).1 uid em = contactsFor db uid em ∨
      ∃ i nm, contactsFor (upsertContact db uid c o).1 uid em =
        (contactsFor db uid em).map (patchName i nm) := by
  unfold upsertContact
  split
  · rename_i ec hec
    split
    · right
      exact ⟨ec.id, c.name, contactsFor_patch db ec.id c.name uid em⟩
    · left; rfl
  · left
    exact contactsFor_append_ne db _ uid em hne

theorem upsertContact_create_key (db : Db) (uid : Nat) (c : ExtractedContact)
    (o : Option Nat) (hempty : contactsFor db uid c.email = []) :
    contactsFor (upsertContact db uid c o).1 uid c.email =
      [{ id := db.nextId, userId := uid, email := c.email, name := c.name, orgId := o }] := by
  have hfind : db.contacts.find? (fun k => k.userId == uid && k.email == c.email) = none := by
    rw [List.find?_eq_none]
    intro x hx
    intro hpx
    have : x ∈ contactsFor db uid c.email := List.mem_filter.mpr ⟨hx, hpx⟩
    rw [hempty] at this
    exact absurd this (List.not_mem_nil x)
  unfold upsertContact
  rw [hfind]
  unfold contactsFor
  show List.filter _ (db.contacts ++ [_]) = _
  rw [List.filter_append]
  have h1 : List.filter (fun k => k.userId == uid && k.email == c.email) db.contacts = [] :=
    hempty
  rw [h1]
  simp

/-- The per-key rows survive the rest of the participant loop with their
`orgId` intact as long as no remaining participant carries the key email. -/
theorem processContacts_goodKey (uid : Nat) (em : String) (cs : List ExtractedContact) :
    ∀ (db : Db) (m : List (String × Option Nat)),
      (∀ x ∈ cs, x.email ≠ em) →
      (∃ r, contactsFor db uid em = [r] ∧ r.orgId = none) →
      ∃ r, contactsFor (processContacts db uid cs m).1 uid em = [r] ∧ r.orgId = none := by
  induction cs with
  | nil => intro db m _ hg; exact hg
  | cons x rest ih =>
    intro db m hne hg
    have hxe : x.email ≠ em := hne x (List.mem_cons_self x rest)
    have hne' : ∀ y ∈ rest, y.email ≠ em := fun y hy => hne y (List.mem_cons_of_mem x hy)
    obtain ⟨r, hr, hro⟩ := hg
    simp only [processContacts]
    split
    · refine ih _ _ hne' ?_
      rcases upsertContact_contactsFor_ne db uid x none em hxe with hsame | ⟨i, nm, hmap⟩
      · exact ⟨r, by rw [hsame, hr], hro⟩
      · refine ⟨patchName i nm r, ?_, by rw [patchName_orgId]; exact hro⟩
        rw [hmap, hr]
        rfl
    · refine ih _ _ hne' ?_
      have horgs : contactsFor (upsertOrg db uid (x.domain.getD "")).1 uid em =
          contactsFor db uid em :=
        contactsFor_congr _ _ uid em (upsertOrg_contacts ..)
      rcases upsertContact_contactsFor_ne (upsertOrg db uid (x.domain.getD "")).1 uid x
          _ em hxe with hsame | ⟨i, nm, hmap⟩
      · exact ⟨r, by rw [hsame, horgs, hr], hro⟩
      · refine ⟨patchName i nm r, ?_, by rw [patchName_orgId]; exact hro⟩
        rw [hmap, horgs, hr]
        rfl

theorem processContacts_keepEmpty (uid : Nat) (em : String) (cs : List ExtractedContact) :
    ∀ (db : Db) (m : List (String × Option Nat)),
      (∀ x ∈ cs, x.email ≠ em) →
      contactsFor db uid em = [] →
      contactsFor (processContacts db uid cs m).1 uid em = [] := by
  induction cs with
  | nil => intro db m _ hg; exact hg
  | cons x rest ih =>
    intro db m hne hg
    have hxe : x.email ≠ em := hne x (List.mem_cons_self x rest)
    have hne' : ∀ y ∈ rest, y.email ≠ em := fun y hy => hne y (List.mem_cons_of_mem x hy)
    simp only [processContacts]
    split
    · refine ih _ _ hne' ?_
      rcases upsertContact_contactsFor_ne db uid x none em hxe with hsame | ⟨i, nm, hmap⟩
      · rw [hsame, hg]
      · rw [hmap, hg]; rfl
    · refine ih _ _ hne' ?_
      have horgs : contactsFor (upsertOrg db uid (x.domain.getD "")).1 uid em =
          contactsFor db uid em :=
        contactsFor_congr _ _ uid em (upsertOrg_contacts ..)
      rcases upsertContact_contactsFor_ne (upsertOrg db uid (x.domain.getD "")).1 uid x
          _ em hxe with hsame | ⟨i, nm, hmap⟩
      · rw [hsame, horgs, hg]
      · rw [hmap, horgs, hg]; rfl

/-- A personal-domain participant of a deduplicated participant list, with
no pre-existing Contact row for its email, ends the participant loop with
exactly one Contact row for that email, and that row has no organization. -/
theorem processContacts_personal_key (uid : Nat) (cs : List ExtractedContact) :
    ∀ (db : Db) (m : List (String × Option Nat)) (c : ExtractedContact),
      c ∈ cs → ((cs.map fun x => x.email).Nodup) →
      isPersonalDomain c.domain = true →
      contactsFor db uid c.email = [] →
      ∃ r, contactsFor (processContacts db uid cs m).1 uid c.email = [r] ∧
        r.orgId = none := by
  induction cs with
  | nil => intro db m c hc; exact absurd hc (List.not_mem_nil c)
  | cons x rest ih =>
    intro db m c hc hnd hper hempty
    have hnd' := hnd
    rw [List.map_cons, List.nodup_cons] at hnd'
    obtain ⟨hxnot, hndrest⟩ := hnd'
    rcases List.mem_cons.mp hc with hcx | hcrest
    · subst hcx
      simp only [processContacts]
      rw [if_pos hper]
      have hcreated := upsertContact_create_key db uid c none hempty
      refine processContacts_goodKey uid c.email rest _ _ ?_ ?_
      · intro y hy he
        exact hxnot (he ▸ List.mem_map_of_mem (fun x => x.email) hy)
      · exact ⟨_, hcreated, rfl⟩
    · have hxc : x.email ≠ c.email := by
        intro he
        exact hxnot (he ▸ List.mem_map_of_mem (fun x => x.email) hcrest)
      simp only [processContacts]
      split
      · refine ih _ _ c hcrest hndrest hper ?_
        rcases upsertContact_contactsFor_ne db uid x none c.email hxc with hs | ⟨i, nm, hm⟩
        · rw [hs, hempty]
        · rw [hm, hempty]; rfl
      · refine ih _ _ c hcrest hndrest hper ?_
        have horgs : contactsFor (upsertOrg db uid (x.domain.getD "")).1 uid c.email =
            contactsFor db uid c.email :=
          contactsFor_congr _ _ uid c.email (upsertOrg_contacts ..)
        rcases upsertContact_contactsFor_ne (upsertOrg db uid (x.domain.getD "")).1 uid x
            _ c.email hxc with hs | ⟨i, nm, hm⟩
        · rw [hs, horgs, hempty]
        · rw [hm, horgs, hempty]; rfl

theorem countOrgs_congr (db db' : Db) (uid : Nat) (d : String)
    (h : db'.orgs = db.orgs) : countOrgs db' uid d = countOrgs db uid d := by
  unfold countOrgs; rw [h]

theorem countOrgs_zero_find (db : Db) (uid : Nat) (d : String)
    (h : countOrgs db uid d = 0) :
    db.orgs.find? (fun o => o.userId == uid && o.domain == d) = none := by
  unfold countOrgs at h
  rw [List.length_eq_zero, List.filter_eq_nil_iff] at h
  rw [List.find?_eq_none]
  exact h

theorem countOrgs_one_find (db : Db) (uid : Nat) (d : String)
    (h : countOrgs db uid d = 1) :
    ∃ o, db.orgs.find? (fun o => o.userId == uid && o.domain == d) = some o := by
  unfold countOrgs at h
  rw [List.length_eq_one] at h
  obtain ⟨r, hr⟩ := h
  have hrm : r ∈ db.orgs.filter fun o => o.userId == uid && o.domain == d := by
    rw [hr]; exact List.mem_singleton.mpr rfl
  rw [List.mem_filter] at hrm
  cases hfind : db.orgs.find? fun o : Org => o.userId == uid && o.domain == d with
  | some o => exact ⟨o, rfl⟩
  | none =>
    rw [List.find?_eq_none] at hfind
    exact absurd hrm.2 (hfind r hrm.1)

theorem upsertOrg_count_create (db : Db) (uid : Nat) (d : String)
    (h : countOrgs db uid d = 0) : countOrgs (upsertOrg db uid d).1 uid d = 1 := by
  unfold upsertOrg
  rw [countOrgs_zero_find db uid d h]
  unfold countOrgs at h ⊢
  show (List.filter _ (db.orgs ++ [_])).length = 1
  rw [List.filter_append, List.length_append, h]
  simp [List.filter]

theorem upsertOrg_count_found (db : Db) (uid : Nat) (d : String)
    (h : countOrgs db uid d = 1) : countOrgs (upsertOrg db uid d).1 uid d = 1 := by
  obtain ⟨o, ho⟩ := countOrgs_one_find db uid d h
  unfold upsertOrg
  rw [ho]
  exact h

theorem upsertOrg_count_other (db : Db) (uid uid' : Nat) (d d' : String)
    (hne : d' ≠ d) : countOrgs (upsertOrg db uid' d').1 uid d = countOrgs db uid d := by
  unfold upsertOrg
  split
  · rfl
  · unfold countOrgs
    show (List.filter _ (db.orgs ++ [_])).length = _
    rw [List.filter_append, List.length_append]
    have : (List.filter (fun o : Org => o.userId == uid && o.domain == d)
        [({ id := db.nextId, userId := uid', domain := d',
            name := formatOrgName d' } : Org)]) = [] := by
      have hb : (d' == d) = false := beq_eq_false_iff_ne.mpr hne
      simp [List.filter, hb]
    rw [this]
    simp

/-- Through the participant loop the `(uid, d)` organization count stays in
`{0, 1}`, stays `1` once `1`, and reaches `1` whenever some participant
carries the non-personal domain `d`. -/
theorem processContacts_orgCount (uid : Nat) (d : String) (cs : List ExtractedContact) :
    ∀ (db : Db) (m : List (String × Option Nat)),
      (countOrgs db uid d = 0 ∨ countOrgs db uid d = 1) →
      ((countOrgs (processContacts db uid cs m).1 uid d = 0 ∨
          countOrgs (processContacts db uid cs m).1 uid d = 1) ∧
        (countOrgs db uid d = 1 → countOrgs (processContacts db uid cs m).1 uid d = 1) ∧
        ((∃ c ∈ cs, c.domain = some d ∧ isPersonalDomain (some d) = false) →
          countOrgs (processContacts db uid cs m).1 uid d = 1)) := by
  induction cs with
  | nil =>
    intro db m hle
    refine ⟨hle, fun h => h, ?_⟩
    rintro ⟨c, hc, -⟩
    exact absurd hc (List.not_mem_nil c)
  | cons x rest ih =>
    intro db m hle
    simp only [processContacts]
    split
    · rename_i hper
      have hcc : countOrgs (upsertContact db uid x none).1 uid d = countOrgs db uid d :=
        countOrgs_congr _ _ uid d (upsertContact_orgs ..)
      obtain ⟨p1, p2, p3⟩ := ih (upsertContact db uid x none).1 _ (by rw [hcc]; exact hle)
      refine ⟨p1, fun h1 => p2 (by rw [hcc]; exact h1), ?_⟩
      rintro ⟨c, hc, hcd, hcp⟩
      rcases List.mem_cons.mp hc with hcx | hcrest
      · exfalso
        subst hcx
        rw [hcd] at hper
        rw [hper] at hcp
        simp at hcp
      · exact p3 ⟨c, hcrest, hcd, hcp⟩
    · rename_i hper
      by_cases hdx : x.domain.getD "" = d
      · have h1 : countOrgs (upsertOrg db uid (x.domain.getD "")).1 uid d = 1 := by
          rw [hdx]
          rcases hle with h0 | h1
          · exact upsertOrg_count_create db uid d h0
          · exact upsertOrg_count_found db uid d h1
        have hcc : countOrgs (upsertContact (upsertOrg db uid (x.domain.getD "")).1 uid x
            (some (upsertOrg db uid (x.domain.getD "")).2.id)).1 uid d = 1 := by
          rw [countOrgs_congr _ _ uid d (upsertContact_orgs ..)]
          exact h1
        obtain ⟨p1, p2, p3⟩ := ih _ (mapSet m x.email (some (upsertOrg db uid
          (x.domain.getD "")).2.id)) (Or.inr hcc)
        exact ⟨p1, fun _ => p2 hcc, fun _ => p2 hcc⟩
      · have hsame : countOrgs (upsertContact (upsertOrg db uid (x.domain.getD "")).1 uid x
            (some (upsertOrg db uid (x.domain.getD "")).2.id)).1 uid d =
            countOrgs db uid d := by
          rw [countOrgs_congr _ _ uid d (upsertContact_orgs ..)]
          exact upsertOrg_count_other db uid uid d (x.domain.getD "") hdx
        obtain ⟨p1, p2, p3⟩ := ih _ (mapSet m x.email (some (upsertOrg db uid
          (x.domain.getD "")).2.id)) (by rw [hsame]; exact hle)
        refine ⟨p1, fun h1 => p2 (by rw [hsame]; exact h1), ?_⟩
        rintro ⟨c, hc, hcd, hcp⟩
        rcases List.mem_cons.mp hc with hcx | hcrest
        · exfalso
          subst hcx
          rw [hcd] at hdx
          exact hdx rfl
        · exact p3 ⟨c, hcrest, hcd, hcp⟩

theorem processMeeting_some (db : Db) (uid : Nat) (s : String) (mt : MeetingType)
    (cs : List ExtractedContact) (m : List (String × Option Nat)) :
    ∃ oid, processMeeting db uid s (some mt) cs m =
      ((upsertMeeting db uid s mt oid).1, some (upsertMeeting db uid s mt oid).2.id) :=
  ⟨_, rfl⟩

theorem classifyMeeting_of_toLower (s1 s2 : String) (h : jsToLower s1 = jsToLower s2) :
    classifyMeeting s1 = classifyMeeting s2 := by
  unfold classifyMeeting
  rw [h]

theorem upsertMeeting_found (db : Db) (uid : Nat) (t : String) (mt : MeetingType)
    (o : Option Nat) (m0 : Meeting)
    (h : db.meetings.find? (fun m => m.userId == uid && jsToLower m.title == jsToLower t) =
      some m0) : upsertMeeting db uid t mt o = (db, m0) := by
  unfold upsertMeeting
  rw [h]

theorem upsertMeeting_notFound (db : Db) (uid : Nat) (t : String) (mt : MeetingType)
    (o : Option Nat)
    (h : db.meetings.find? (fun m => m.userId == uid && jsToLower m.title == jsToLower t) =
      none) :
    upsertMeeting db uid t mt o =
      ({ db with
          meetings := db.meetings ++
            [{ id := db.nextId, userId := uid, title := t, meetingType := mt,
               orgId := o }],
          nextId := db.nextId + 1 },
        { id := db.nextId, userId := uid, title := t, meetingType := mt, orgId := o }) := by
  unfold upsertMeeting
  rw [h]

/-- A routed run whose subject classifies, against a store with no meeting
matching the subject case-insensitively for this user, appends exactly one
Meeting row (with the subject as title and the classified type). -/
theorem handle_meeting_create (db : Db) (p : InboundEmailPayload) (u : User)
    (mt : MeetingType) (hr : routeUser db p = some u)
    (hc : classifyMeeting p.subject = some mt)
    (hno : ∀ m ∈ db.meetings, ¬(m.userId = u.id ∧ jsToLower m.title = jsToLower p.subject)) :
    ∃ mrow : Meeting,
      (handleInboundEmail db p).1.meetings = db.meetings ++ [mrow] ∧
        mrow.userId = u.id ∧ mrow.title = p.subject ∧ mrow.meetingType = mt := by
  rw [handleInboundEmail_routed db p u hr]
  rw [step6_meetings]
  have hsub : (parseInboundEmail p).subject = p.subject := rfl
  set db1 := (processContacts db u.id (extractContacts p) []).1 with hdb1
  have hm1 : db1.meetings = db.meetings := processContacts_meetings u.id (extractContacts p) db []
  rw [hsub, hc]
  obtain ⟨oid, hpm⟩ := processMeeting_some db1 u.id p.subject mt (extractContacts p)
    (processContacts db u.id (extractContacts p) []).2
  rw [hpm]
  have hfind : db1.meetings.find?
      (fun m => m.userId == u.id && jsToLower m.title == jsToLower p.subject) = none := by
    rw [List.find?_eq_none]
    intro x hx hpx
    rw [hm1] at hx
    simp only [Bool.and_eq_true, beq_iff_eq] at hpx
    exact hno x hx ⟨hpx.1, hpx.2⟩
  rw [upsertMeeting_notFound db1 u.id p.subject mt oid hfind]
  refine ⟨{ id := db1.nextId, userId := u.id, title := p.subject, meetingType := mt,
            orgId := oid }, ?_, rfl, rfl, rfl⟩
  show db1.meetings ++ _ = db.meetings ++ _
  rw [hm1]

/-- A routed run whose subject classifies, against a store that already has
a matching meeting, leaves the meeting table unchanged. -/
theorem handle_meeting_reuse (db : Db) (p : InboundEmailPayload) (u : User)
    (mt : MeetingType) (hr : routeUser db p = some u)
    (hc : classifyMeeting p.subject = some mt)
    (hex : ∃ m0, db.meetings.find?
      (fun m => m.userId == u.id && jsToLower m.title == jsToLower p.subject) = some m0) :
    (handleInboundEmail db p).1.meetings = db.meetings := by
  rw [handleInboundEmail_routed db p u hr]
  rw [step6_meetings]
  have hsub : (parseInboundEmail p).subject = p.subject := rfl
  set db1 := (processContacts db u.id (extractContacts p) []).1 with hdb1
  have hm1 : db1.meetings = db.meetings := processContacts_meetings u.id (extractContacts p) db []
  rw [hsub, hc]
  obtain ⟨oid, hpm⟩ := processMeeting_some db1 u.id p.subject mt (extractContacts p)
    (processContacts db u.id (extractContacts p) []).2
  rw [hpm]
  obtain ⟨m0, hm0⟩ := hex
  have hfind : db1.meetings.find?
      (fun m => m.userId == u.id && jsToLower m.title == jsToLower p.subject) = some m0 := by
    rw [hm1]; exact hm0
  rw [upsertMeeting_found db1 u.id p.subject mt oid m0 hfind]
  exact hm1

/-- The To/Cc loop only appends, and appends only entries whose email does
not have the routing shape and was not present before the append. -/
theorem addRecipients_append (l : List String) :
    ∀ acc : List ExtractedContact, ∃ tl, addRecipients acc l = acc ++ tl ∧
      ∀ x ∈ tl, isRoutingAddress x.email = false := by
  induction l with
  | nil =>
    intro acc
    exact ⟨[], by simp [addRecipients], by intro x hx; exact absurd hx (List.not_mem_nil x)⟩
  | cons addr rest ih =>
    intro acc
    simp only [addRecipients]
    split
    · exact ih acc
    · split
      · exact ih acc
      · rename_i hroute hnew
        obtain ⟨tl, htl, hall⟩ := ih (acc ++
          [{ email := (parseEmailAddress addr).email, name := (parseEmailAddress addr).name,
             domain := extractDomain (parseEmailAddress addr).email }])
        refine ⟨{ email := (parseEmailAddress addr).email,
                  name := (parseEmailAddress addr).name,
                  domain := extractDomain (parseEmailAddress addr).email } :: tl, ?_, ?_⟩
        · rw [htl, List.append_assoc]
          rfl
        · intro x hx
          rcases List.mem_cons.mp hx with hx1 | hx2
          · rw [hx1]
            exact Bool.of_not_eq_true hroute
          · exact hall x hx2

/-- The To/Cc loop preserves having pairwise-distinct emails. -/
theorem addRecipients_nodup (l : List String) :
    ∀ acc : List ExtractedContact, ((acc.map fun x => x.email).Nodup) →
      (((addRecipients acc l).map fun x => x.email).Nodup) := by
  induction l with
  | nil => intro acc h; simpa [addRecipients] using h
  | cons addr rest ih =>
    intro acc hnd
    simp only [addRecipients]
    split
    · exact ih acc hnd
    · split
      · exact ih acc hnd
      · rename_i hroute hnew
        refine ih _ ?_
        rw [List.map_append, List.map_singleton]
        rw [List.nodup_append]
        refine ⟨hnd, List.nodup_singleton _, ?_⟩
        intro e he hmem
        rw [List.mem_singleton] at hmem
        have : acc.any (fun c => c.email == (parseEmailAddress addr).email) = true := by
          rw [List.any_eq_true]
          obtain ⟨x, hx, hxe⟩ := List.mem_map.mp he
          exact ⟨x, hx, by rw [hxe, hmem]; exact beq_self_eq_true _⟩
        exact hnew this

/-- Every extracted participant list has pairwise-distinct emails. -/
theorem extractContacts_nodup (p : InboundEmailPayload) :
    (((extractContacts p).map fun x => x.email).Nodup) := by
  unfold extractContacts
  refine addRecipients_nodup _ _ (addRecipients_nodup _ _ ?_)
  simp

/-- The sender is always the first extracted participant. -/
theorem extractContacts_head (p : InboundEmailPayload) :
    (extractContacts p).head? =
      some { email := (parseEmailAddress p.«from»).email,
             name := (parseEmailAddress p.«from»).name,
             domain := extractDomain (parseEmailAddress p.«from»).email } := by
  show (addRecipients (addRecipients
      [{ email := (parseEmailAddress p.«from»).email,
         name := (parseEmailAddress p.«from»).name,
         domain := extractDomain (parseEmailAddress p.«from»).email }] p.«to»)
      (p.cc.getD [])).head? = _
  obtain ⟨tl1, htl1, -⟩ := addRecipients_append p.«to»
    [{ email := (parseEmailAddress p.«from»).email,
       name := (parseEmailAddress p.«from»).name,
       domain := extractDomain (parseEmailAddress p.«from»).email }]
  rw [htl1]
  obtain ⟨tl2, htl2, -⟩ := addRecipients_append (p.cc.getD [])
    ([{ email := (parseEmailAddress p.«from»).email,
        name := (parseEmailAddress p.«from»).name,
        domain := extractDomain (parseEmailAddress p.«from»).email }] ++ tl1)
  rw [htl2]
  rfl

/-- Every routing-shaped participant email is the sender's. -/
theorem extractContacts_routing_is_sender (p : InboundEmailPayload) :
    ∀ c ∈ extractContacts p, isRoutingAddress c.email = true →
      c.email = (parseEmailAddress p.«from»).email := by
  intro c hc hroute
  change c ∈ addRecipients (addRecipients
      [{ email := (parseEmailAddress p.«from»).email,
         name := (parseEmailAddress p.«from»).name,
         domain := extractDomain (parseEmailAddress p.«from»).email }] p.«to»)
      (p.cc.getD []) at hc
  obtain ⟨tl1, htl1, hall1⟩ := addRecipients_append p.«to»
    [{ email := (parseEmailAddress p.«from»).email,
       name := (parseEmailAddress p.«from»).name,
       domain := extractDomain (parseEmailAddress p.«from»).email }]
  rw [htl1] at hc
  obtain ⟨tl2, htl2, hall2⟩ := addRecipients_append (p.cc.getD [])
    ([{ email := (parseEmailAddress p.«from»).email,
        name := (parseEmailAddress p.«from»).name,
        domain := extractDomain (parseEmailAddress p.«from»).email }] ++ tl1)
  rw [htl2] at hc
  rcases List.mem_append.mp hc with hc1 | hc2
  · rcases List.mem_append.mp hc1 with hs | ht1
    · rw [List.mem_singleton] at hs
      rw [hs]
    · rw [hall1 c ht1] at hroute
      exact absurd hroute (by simp)
  · rw [hall2 c hc2] at hroute
    exact absurd hroute (by simp)

/-!
## The claims
-/

/-- Claim C1.  The claim states that a bare address is returned whole
(lowercased and trimmed) with a null name.  The code disagrees: on the
bare input `"john@example.com"` the optional leading group of the regular
expression captures `"joh"` out of the local part, so the parser returns
name `"joh"` and email `"n@example.com"`.  This theorem evaluates the
embedded parser at that failing input. -/
theorem claim_C1_bare_address_misparsed :
    parseEmailAddress "john@example.com" =
      { name := some "joh", email := "n@example.com" } ∧
    parseEmailAddress "john@example.com" ≠
      { name := none, email := "john@example.com" } := by
  constructor
  · decide
  · decide

/-- Claim C2.  The claim states that the routing address is identified from
`to: ["u_abc123@in.example.com", "jane@company.com"]` and that
`jane@company.com` is extracted while the routing address is not.  Because
`parseEmailAddress` mangles bare addresses, the parsed To addresses are
`3@in.example.com` and `e@company.com`: no routing address is found, the
handler drops the email even though a user owns the routing address, and
the participant set contains neither `jane@company.com` nor the routing
address but their mangled remainders.  This theorem evaluates the embedded
handler at that failing payload. -/
theorem claim_C2_routing_not_identified :
    routingAddressOf (parseInboundEmail payloadRoute) = none ∧
    handleInboundEmail dbRoute payloadRoute = (dbRoute, none) ∧
    (extractContacts payloadRoute).map (fun c => c.email) =
      ["s@acme.com", "3@in.example.com", "e@company.com"] := by
  refine ⟨by decide, by decide, by decide⟩

/-- Claim C3.  Processing the same payload twice for the same owning user
leaves exactly one EmailMessage row for `(userId, messageId)` and the
second call returns without throwing (the duplicate-create error contains
`'Unique constraint'` and is swallowed), while an error without that
substring is rethrown unchanged by the surrounding catch. -/
theorem claim_C3_idempotent (db : Db) (p : InboundEmailPayload) (u : User)
    (dbx dbx' : Db) (e : String)
    (hroute : routeUser db p = some u)
    (hfresh : countEmails db u.id p.messageId = 0)
    (hother : containsSubstr e "Unique constraint" = false) :
    (handleInboundEmail db p).2 = none ∧
    countEmails (handleInboundEmail db p).1 u.id p.messageId = 1 ∧
    (handleInboundEmail (handleInboundEmail db p).1 p).2 = none ∧
    countEmails (handleInboundEmail (handleInboundEmail db p).1 p).1 u.id p.messageId = 1 ∧
    catchDuplicate dbx (dbx', some e) = (dbx, some e) := by
  obtain ⟨h1, h2, husers⟩ := handle_first_run db p u hroute hfresh
  have hroute2 : routeUser (handleInboundEmail db p).1 p = some u := by
    rw [routeUser_congr db (handleInboundEmail db p).1 p husers]
    exact hroute
  obtain ⟨h3, h4⟩ := handle_second_run (handleInboundEmail db p).1 p u hroute2 h2
  refine ⟨h1, h2, h3, h4, ?_⟩
  show (if containsSubstr e "Unique constraint" = true then (dbx, none)
    else (dbx, some e)) = (dbx, some e)
  rw [hother]
  simp

theorem claim_C3_idempotent_witness :
    routeUser dbU payloadQbr = some { id := 1, bccAddress := "u_x@in.c" } ∧
    countEmails dbU 1 "m1" = 0 ∧
    containsSubstr "Database connection failed" "Unique constraint" = false ∧
    ((handleInboundEmail dbU payloadQbr).2 = none ∧
      countEmails (handleInboundEmail dbU payloadQbr).1 1 "m1" = 1 ∧
      (handleInboundEmail (handleInboundEmail dbU payloadQbr).1 payloadQbr).2 = none ∧
      countEmails (handleInboundEmail (handleInboundEmail dbU payloadQbr).1 payloadQbr).1
        1 "m1" = 1 ∧
      catchDuplicate dbU (dbU, some "Database connection failed") =
        (dbU, some "Database connection failed")) :=
  ⟨by decide, by decide, by decide,
    claim_C3_idempotent dbU payloadQbr { id := 1, bccAddress := "u_x@in.c" } dbU dbU
      "Database connection failed" (by decide) (by decide) (by decide)⟩

/-- Claim C4.  The claim states word-boundary matching for every pattern of
the classifier.  Only the standalone `qbr` check and the OTHER-fallback
list carry `\b`; the inline `weekly\s+(sync|check-?in|meeting|call)` does
not, so `"biweekly sync"` — where `weekly sync` occurs only inside the
longer token `biweekly` — classifies as WEEKLY_CHECKIN.  The `qbr` half of
the claim does hold: `qbr` inside the longer token `abqbrc` does not fire.
This theorem evaluates the embedded classifier at both inputs. -/
theorem claim_C4_word_boundaries :
    classifyMeeting "biweekly sync" = some MeetingType.WEEKLY_CHECKIN ∧
    classifyMeeting "abqbrc" = none := by
  refine ⟨by decide, by decide⟩

/-- Claim C5.  A participant whose domain is null, empty or personal (all
three are exactly `isPersonalDomain = true`) yields a Contact with
`orgId = null` and no Organization; every handler run preserves the
invariant that no Organization has a personal domain. -/
theorem claim_C5_personal_domains (db : Db) (p : InboundEmailPayload) (u : User)
    (c : ExtractedContact)
    (horgs : orgsOk db)
    (hroute : routeUser db p = some u)
    (hc : c ∈ extractContacts p)
    (hper : isPersonalDomain c.domain = true)
    (hnew : contactsFor db u.id c.email = []) :
    orgsOk (handleInboundEmail db p).1 ∧
    ∃ r, contactsFor (handleInboundEmail db p).1 u.id c.email = [r] ∧ r.orgId = none := by
  refine ⟨handleInboundEmail_orgsOk db p horgs, ?_⟩
  rw [handleInboundEmail_routed db p u hroute]
  rw [contactsFor_congr _ _ u.id c.email (step6_contacts ..)]
  rw [contactsFor_congr _ _ u.id c.email (processMeeting_contacts ..)]
  exact processContacts_personal_key u.id (extractContacts p) db [] c hc
    (extractContacts_nodup p) hper hnew

theorem claim_C5_personal_domains_witness :
    orgsOk dbU ∧
    routeUser dbU payloadGmail = some { id := 1, bccAddress := "u_x@in.c" } ∧
    (⟨"ann@gmail.com", none, some "gmail.com"⟩ : ExtractedContact) ∈
      extractContacts payloadGmail ∧
    isPersonalDomain (some "gmail.com") = true ∧
    contactsFor dbU 1 "ann@gmail.com" = [] ∧
    (orgsOk (handleInboundEmail dbU payloadGmail).1 ∧
      ∃ r, contactsFor (handleInboundEmail dbU payloadGmail).1 1 "ann@gmail.com" = [r] ∧
        r.orgId = none) :=
  ⟨by unfold orgsOk; decide, by decide, by decide, by decide, by decide,
    claim_C5_personal_domains dbU payloadGmail { id := 1, bccAddress := "u_x@in.c" }
      ⟨"ann@gmail.com", none, some "gmail.com"⟩ (by unfold orgsOk; decide) (by decide)
      (by decide) (by decide) (by decide)⟩

/-- Claim C6.  For an already-existing Contact, `upsertContact` returns the
row as found, leaves every other table untouched, patches only the name
field, does so only when the incoming name is non-null (truthy) and the
stored name is null, and otherwise changes nothing — in particular a
stored `orgId` and a name once set are never overwritten.  The hypothesis
`ec.name ≠ some ""` excludes the empty-string name, which no reachable
Contact carries (the parser never produces one) but which JavaScript
truthiness would treat as unset. -/
theorem claim_C6_contact_patch (db : Db) (uid : Nat) (c : ExtractedContact)
    (orgId : Option Nat) (ec : Contact)
    (hfound : db.contacts.find? (fun k => k.userId == uid && k.email == c.email) =
      some ec)
    (hnotempty : ec.name ≠ some "") :
    (upsertContact db uid c orgId).2 = ec ∧
    (upsertContact db uid c orgId).1.users = db.users ∧
    (upsertContact db uid c orgId).1.orgs = db.orgs ∧
    (upsertContact db uid c orgId).1.meetings = db.meetings ∧
    (upsertContact db uid c orgId).1.emails = db.emails ∧
    ((truthy c.name = true ∧ ec.name = none) →
      (upsertContact db uid c orgId).1.contacts =
        db.contacts.map (patchName ec.id c.name)) ∧
    (¬(truthy c.name = true ∧ ec.name = none) →
      (upsertContact db uid c orgId).1 = db) := by
  have hun : ∀ o, truthy o = false → o ≠ some "" → o = none := by
    intro o hf hne
    cases o with
    | none => rfl
    | some s =>
      unfold truthy at hf
      rw [Bool.not_eq_false', beq_iff_eq] at hf
      exact absurd (by rw [hf]) hne
  simp only [upsertContact, hfound]
  by_cases hcond : (truthy c.name && !truthy ec.name) = true
  · rw [if_pos hcond]
    rw [Bool.and_eq_true, Bool.not_eq_true'] at hcond
    have hecname : ec.name = none := hun ec.name hcond.2 hnotempty
    refine ⟨rfl, rfl, rfl, rfl, rfl, fun _ => rfl, fun hnot => ?_⟩
    exact absurd ⟨hcond.1, hecname⟩ hnot
  · rw [if_neg hcond]
    refine ⟨rfl, rfl, rfl, rfl, rfl, fun hyes => ?_, fun _ => rfl⟩
    exfalso
    apply hcond
    rw [Bool.and_eq_true, Bool.not_eq_true']
    refine ⟨hyes.1, ?_⟩
    rw [hyes.2]
    rfl

theorem claim_C6_contact_patch_witness :
    dbContact.contacts.find?
      (fun k => k.userId == 1 && k.email == annContact.email) =
      some { id := 5, userId := 1, email := "a@b.c", name := none, orgId := none } ∧
    ({ id := 5, userId := 1, email := "a@b.c", name := none,
       orgId := none } : Contact).name ≠ some "" ∧
    ((upsertContact dbContact 1 annContact none).2 =
        { id := 5, userId := 1, email := "a@b.c", name := none, orgId := none } ∧
      (upsertContact dbContact 1 annContact none).1.users = dbContact.users ∧
      (upsertContact dbContact 1 annContact none).1.orgs = dbContact.orgs ∧
      (upsertContact dbContact 1 annContact none).1.meetings = dbContact.meetings ∧
      (upsertContact dbContact 1 annContact none).1.emails = dbContact.emails ∧
      ((truthy annContact.name = true ∧
          ({ id := 5, userId := 1, email := "a@b.c", name := none,
             orgId := none } : Contact).name = none) →
        (upsertContact dbContact 1 annContact none).1.contacts =
          dbContact.contacts.map (patchName 5 annContact.name)) ∧
      (¬(truthy annContact.name = true ∧
          ({ id := 5, userId := 1, email := "a@b.c", name := none,
             orgId := none } : Contact).name = none) →
        (upsertContact dbContact 1 annContact none).1 = dbContact)) :=
  ⟨by decide, by decide,
    claim_C6_contact_patch dbContact 1 annContact none
      { id := 5, userId := 1, email := "a@b.c", name := none, orgId := none }
      (by decide) (by decide)⟩

/-- Claim C7.  Two sequential emails for the same user with
case-insensitively equal subjects (that classify as a meeting) resolve to
one Meeting row: the first routed run creates exactly one row with the
subject as title, and the second creates none; and a found Meeting is
returned with the store unchanged — its stored `meetingType`/`orgId` are
not updated. -/
theorem claim_C7_meeting_dedup (db : Db) (p1 p2 : InboundEmailPayload) (u : User)
    (mt : MeetingType)
    (hr1 : routeUser db p1 = some u)
    (hr2 : routeUser (handleInboundEmail db p1).1 p2 = some u)
    (hcls : classifyMeeting p1.subject = some mt)
    (hsubj : jsToLower p1.subject = jsToLower p2.subject)
    (hno : ∀ m ∈ db.meetings, ¬(m.userId = u.id ∧ jsToLower m.title = jsToLower p1.subject)) :
    (∃ mrow : Meeting, (handleInboundEmail db p1).1.meetings = db.meetings ++ [mrow] ∧
      mrow.userId = u.id ∧ mrow.title = p1.subject ∧ mrow.meetingType = mt ∧
      (handleInboundEmail (handleInboundEmail db p1).1 p2).1.meetings =
        (handleInboundEmail db p1).1.meetings) ∧
    (∀ (dbx : Db) (uidx : Nat) (t : String) (mtx : MeetingType) (oidx : Option Nat)
        (mx : Meeting),
      dbx.meetings.find? (fun m => m.userId == uidx && jsToLower m.title == jsToLower t) =
        some mx →
      upsertMeeting dbx uidx t mtx oidx = (dbx, mx)) := by
  obtain ⟨mrow, hmeq, hmu, hmt, hmty⟩ := handle_meeting_create db p1 u mt hr1 hcls hno
  have hcls2 : classifyMeeting p2.subject = some mt := by
    rw [← classifyMeeting_of_toLower p1.subject p2.subject hsubj]
    exact hcls
  have hpred : (fun m => m.userId == u.id && jsToLower m.title == jsToLower p2.subject)
      mrow = true := by
    rw [Bool.and_eq_true, beq_iff_eq, beq_iff_eq]
    exact ⟨hmu, by rw [hmt, hsubj]⟩
  have hex : ∃ m0, (handleInboundEmail db p1).1.meetings.find?
      (fun m => m.userId == u.id && jsToLower m.title == jsToLower p2.subject) =
      some m0 := by
    refine ⟨mrow, ?_⟩
    rw [hmeq, List.find?_append]
    have hfirst : db.meetings.find?
        (fun m => m.userId == u.id && jsToLower m.title == jsToLower p2.subject) =
        none := by
      rw [List.find?_eq_none]
      intro x hx hpx
      rw [Bool.and_eq_true, beq_iff_eq, beq_iff_eq] at hpx
      exact hno x hx ⟨hpx.1, by rw [hpx.2, ← hsubj]⟩
    rw [hfirst]
    simp [List.find?, hpred]
  have hreuse := handle_meeting_reuse (handleInboundEmail db p1).1 p2 u mt hr2 hcls2 hex
  refine ⟨⟨mrow, hmeq, hmu, hmt, hmty, hreuse⟩, ?_⟩
  intro dbx uidx t mtx oidx mx hfind
  exact upsertMeeting_found dbx uidx t mtx oidx mx hfind

theorem claim_C7_meeting_dedup_witness :
    routeUser dbU payloadQbr = some { id := 1, bccAddress := "u_x@in.c" } ∧
    routeUser (handleInboundEmail dbU payloadQbr).1 payloadQbrLower =
      some { id := 1, bccAddress := "u_x@in.c" } ∧
    classifyMeeting payloadQbr.subject = some MeetingType.QBR ∧
    jsToLower payloadQbr.subject = jsToLower payloadQbrLower.subject ∧
    ((∃ mrow : Meeting,
        (handleInboundEmail dbU payloadQbr).1.meetings = dbU.meetings ++ [mrow] ∧
        mrow.userId = 1 ∧ mrow.title = payloadQbr.subject ∧
        mrow.meetingType = MeetingType.QBR ∧
        (handleInboundEmail (handleInboundEmail dbU payloadQbr).1 payloadQbrLower).1.meetings =
          (handleInboundEmail dbU payloadQbr).1.meetings) ∧
      (∀ (dbx : Db) (uidx : Nat) (t : String) (mtx : MeetingType) (oidx : Option Nat)
          (mx : Meeting),
        dbx.meetings.find?
          (fun m => m.userId == uidx && jsToLower m.title == jsToLower t) = some mx →
        upsertMeeting dbx uidx t mtx oidx = (dbx, mx))) :=
  ⟨by decide, by decide, by decide, by decide,
    claim_C7_meeting_dedup dbU payloadQbr payloadQbrLower
      { id := 1, bccAddress := "u_x@in.c" } MeetingType.QBR (by decide) (by decide)
      (by decide) (by decide)
      (by intro m hm; exact absurd hm (List.not_mem_nil m))⟩

/-- Claim C8.  For a previously-unseen non-personal domain, a routed run
creates exactly one Organization; `upsertOrg` creates with the name derived
by `formatOrgName` (strip one known TLD suffix, `-`/`_` to spaces,
title-case each word — `acme-corp.com` becomes `"Acme Corp"`) and returns
an existing Organization unchanged, so existing names are never rewritten
by later emails. -/
theorem claim_C8_org_creation (db : Db) (p : InboundEmailPayload) (u : User)
    (c : ExtractedContact) (d : String)
    (hroute : routeUser db p = some u)
    (hc : c ∈ extractContacts p)
    (hd : c.domain = some d)
    (hnp : isPersonalDomain (some d) = false)
    (h0 : countOrgs db u.id d = 0) :
    countOrgs (handleInboundEmail db p).1 u.id d = 1 ∧
    formatOrgName "acme-corp.com" = "Acme Corp" ∧
    (∀ (dbo : Db) (uido : Nat) (dd : String),
      dbo.orgs.find? (fun og => og.userId == uido && og.domain == dd) = none →
      (upsertOrg dbo uido dd).1.orgs = dbo.orgs ++
        [{ id := dbo.nextId, userId := uido, domain := dd,
           name := formatOrgName dd }]) ∧
    (∀ (dbo : Db) (uido : Nat) (dd : String) (og : Org),
      dbo.orgs.find? (fun o => o.userId == uido && o.domain == dd) = some og →
      upsertOrg dbo uido dd = (dbo, og)) := by
  refine ⟨?_, by decide, ?_, ?_⟩
  · rw [handleInboundEmail_routed db p u hroute]
    rw [countOrgs_congr _ _ u.id d (step6_orgs ..)]
    rw [countOrgs_congr _ _ u.id d (processMeeting_orgs ..)]
    obtain ⟨-, -, p3⟩ := processContacts_orgCount u.id d (extractContacts p) db []
      (Or.inl h0)
    exact p3 ⟨c, hc, hd, hnp⟩
  · intro dbo uido dd hnone
    unfold upsertOrg
    rw [hnone]
  · intro dbo uido dd og hsome
    unfold upsertOrg
    rw [hsome]

theorem claim_C8_org_creation_witness :
    routeUser dbU payloadQbr = some { id := 1, bccAddress := "u_x@in.c" } ∧
    (⟨"ann@acme.com", none, some "acme.com"⟩ : ExtractedContact) ∈
      extractContacts payloadQbr ∧
    isPersonalDomain (some "acme.com") = false ∧
    countOrgs dbU 1 "acme.com" = 0 ∧
    (countOrgs (handleInboundEmail dbU payloadQbr).1 1 "acme.com" = 1 ∧
      formatOrgName "acme-corp.com" = "Acme Corp" ∧
      (∀ (dbo : Db) (uido : Nat) (dd : String),
        dbo.orgs.find? (fun og => og.userId == uido && og.domain == dd) = none →
        (upsertOrg dbo uido dd).1.orgs = dbo.orgs ++
          [{ id := dbo.nextId, userId := uido, domain := dd,
             name := formatOrgName dd }]) ∧
      (∀ (dbo : Db) (uido : Nat) (dd : String) (og : Org),
        dbo.orgs.find? (fun o => o.userId == uido && o.domain == dd) = some og →
        upsertOrg dbo uido dd = (dbo, og))) :=
  ⟨by decide, by decide, by decide, by decide,
    claim_C8_org_creation dbU payloadQbr { id := 1, bccAddress := "u_x@in.c" }
      ⟨"ann@acme.com", none, some "acme.com"⟩ "acme.com" (by decide) (by decide)
      (by decide) (by decide) (by decide)⟩

/-- Claim C9, counterexample.  The claim says the participant set excludes
the routing address even when the `from` field is the routing address; but
`extractContacts` adds the sender unconditionally, so for a payload whose
sender is `<u_x@in.c>` the routing-shaped address is in the set. -/
theorem claim_C9_counterexample :
    routingAddressOf (parseInboundEmail payloadSelf) = some "u_x@in.c" ∧
    (⟨"u_x@in.c", none, some "in.c"⟩ : ExtractedContact) ∈ extractContacts payloadSelf ∧
    isRoutingAddress "u_x@in.c" = true := by
  refine ⟨by decide, by decide, by decide⟩

/-- Claim C9, amended: the extracted participant set is the sender (always
first, hence always included — even when the sender is the routing
address), then the To and Cc addresses except those whose parsed email has
the routing shape, deduplicated by parsed (lowercase) email with the first
occurrence winning; consequently any routing-shaped email in the set can
only be the sender's. -/
theorem claim_C9_routing_excluded_amended (p : InboundEmailPayload) :
    (extractContacts p).head? =
      some { email := (parseEmailAddress p.«from»).email,
             name := (parseEmailAddress p.«from»).name,
             domain := extractDomain (parseEmailAddress p.«from»).email } ∧
    (∀ c ∈ extractContacts p, isRoutingAddress c.email = true →
      c.email = (parseEmailAddress p.«from»).email) ∧
    (((extractContacts p).map fun c => c.email).Nodup) :=
  ⟨extractContacts_head p, extractContacts_routing_is_sender p, extractContacts_nodup p⟩

/-- Claim C10.  The catch around the EmailMessage create recovers exactly
from errors whose message contains the substring `'Unique constraint'` —
regardless of which constraint or table produced it — reporting success
with the pre-create store; every other error (including a store that words
duplicate keys differently, e.g. lowercase `'unique constraint'`) is
rethrown unchanged.  A successful create passes through untouched. -/
theorem claim_C10_catch_substring (db db' : Db) (e : String) :
    (catchDuplicate db (db', some e) = (db, none) ↔
      containsSubstr e "Unique constraint" = true) ∧
    (containsSubstr e "Unique constraint" = false →
      catchDuplicate db (db', some e) = (db, some e)) ∧
    catchDuplicate db (db', none) = (db', none) ∧
    (∀ row : EmailMessage, step6 db row = catchDuplicate db (emailMessageCreate db row)) ∧
    catchDuplicate db
      (db', some "Unique constraint failed on the fields: (`userId`,`domain`)") =
      (db, none) ∧
    catchDuplicate db
      (db', some "duplicate key value violates unique constraint") =
      (db, some "duplicate key value violates unique constraint") := by
  have hred : ∀ e' : String, catchDuplicate db (db', some e') =
      if containsSubstr e' "Unique constraint" = true then (db, none)
      else (db, some e') := fun e' => rfl
  refine ⟨?_, ?_, rfl, fun row => rfl, ?_, ?_⟩
  · constructor
    · intro heq
      by_contra hfalse
      rw [Bool.not_eq_true] at hfalse
      rw [hred, if_neg (by rw [hfalse]; simp)] at heq
      have := congrArg Prod.snd heq
      simp at this
    · intro htrue
      rw [hred, if_pos htrue]
  · intro hfalse
    rw [hred, if_neg (by rw [hfalse]; simp)]
  · rw [hred, if_pos (by decide)]
  · rw [hred, if_neg (by decide)]
